import Mathlib

/-!
Verification development for the recording-meta repository.

The repository (src/src/app.js) loads synthetic contact-center call
recording documents into Redis as JSON objects (`loadData`), declares a
Redis Search index over a tag field (`mediaType`), a numeric field
(`agentId`), text fields (`text`), and a vector field of dimension 1536
with COSINE metric (`buildIndex`), and runs three search scenarios
(conjunctive tag+numeric filtering, lexical term search, and KNN vector
search).

The search-engine core itself (document store, field indexes, query
executor) lives in the Redis server, not in the repository's own source;
it is modelled here from the specification's words (each such definition
carries a `Modelled from the spec:` doc comment).  Definitions taken
directly from the repository's source (`createMetaData`'s media-type pool,
`loadData`'s key scheme) are translated from `app.js`.
-/

namespace RecMeta


/-- Modelled from the spec: document identifier, an opaque comparable key. -/
abbrev DocId := Nat

/-- Modelled from the spec: a character splitting tokens — tokenization splits
on non-alphanumeric boundaries. -/
def isWordChar (c : Char) : Bool := c.isAlpha || c.isDigit

/-- Modelled from the spec: tokenizer worker over the character list; `acc`
holds the current (reversed) in-progress token. -/
def tokenizeAux : List Char → List Char → List String
  | [], acc => if acc.isEmpty then [] else [String.mk acc.reverse]
  | c :: cs, acc =>
    if isWordChar c then tokenizeAux cs (c.toLower :: acc)
    else if acc.isEmpty then tokenizeAux cs []
    else String.mk acc.reverse :: tokenizeAux cs []

/-- Modelled from the spec: the Text Index tokenizes free text into
case-normalized terms (lowercasing; splitting on non-alphanumeric
boundaries). -/
def tokenize (s : String) : List String := tokenizeAux s.toList []

/-- Modelled from the spec: a loosely-typed record field value — an explicit
tagged union with variants Tag, Numeric, Text, Vector.  Vector components
are rationals (the shallow embedding of the engine's floats). -/
inductive Value where
  | tag (s : String)
  | num (n : Int)
  | txt (s : String)
  | vec (v : List ℚ)
deriving DecidableEq

/-- Modelled from the spec: a validated document with one field per index
kind, mirroring the schema declared by `buildIndex` (tag `mediaType`,
numeric `agentId`, text `text`, vector `vector`). -/
structure Doc where
  mediaType : String
  agentId : Int
  text : String
  vec : List ℚ
deriving DecidableEq

/-- Modelled from the spec: a raw (not yet validated) document mapping each
indexed field name to a loosely-typed value. -/
structure RawDoc where
  mediaType : Value
  agentId : Value
  text : Value
  vector : Value
deriving DecidableEq

/-- Modelled from the spec: error taxonomy — `DimensionMismatchError` is a
distinct error from type mismatch. -/
inductive IngestError where
  | typeMismatch
  | dimensionMismatch
deriving DecidableEq

/-- Modelled from the spec: the engine state — Document Store (single source
of truth for field values, plus its set of live keys), and one field index
per indexed field: tag postings, numeric postings, text (term) postings,
and the vector index's id-to-vector mapping.  Postings are finite sets of
(native key, document id) pairs. -/
structure Engine where
  dim : ℕ
  store : DocId → Option Doc
  live : Finset DocId
  tagIdx : Finset (String × DocId)
  numIdx : Finset (Int × DocId)
  textIdx : Finset (String × DocId)
  vecIdx : DocId → Option (List ℚ)

/-- Modelled from the spec: an engine with all indexes empty, for a declared
vector dimension. -/
def emptyEngine (dim : ℕ) : Engine where
  dim := dim
  store := fun _ => none
  live := ∅
  tagIdx := ∅
  numIdx := ∅
  textIdx := ∅
  vecIdx := fun _ => none

/-- Modelled from the spec: `validate(document)` checks every indexed field
is present with the declared type and, for vectors, exact declared
dimension; dimension mismatch is a distinct error from type mismatch. -/
def validate (dim : ℕ) (r : RawDoc) : Except IngestError Doc :=
  match r.vector with
  | .vec v =>
    if v.length = dim then
      match r.mediaType, r.agentId, r.text with
      | .tag t, .num n, .txt s => .ok ⟨t, n, s, v⟩
      | _, _, _ => .error .typeMismatch
    else .error .dimensionMismatch
  | _ => .error .typeMismatch

/-- Modelled from the spec: retract a document's postings — the pipeline
uses the removed document's values to compute the postings to retract from
every field index, and removes the document from the store. -/
def retract (e : Engine) (i : DocId) : Engine :=
  match e.store i with
  | none => e
  | some d =>
    { e with
      store := fun j => if j = i then none else e.store j
      live := e.live.erase i
      tagIdx := e.tagIdx.erase (d.mediaType, i)
      numIdx := e.numIdx.erase (d.agentId, i)
      textIdx := e.textIdx \ (tokenize d.text).toFinset.image (fun t => (t, i))
      vecIdx := fun j => if j = i then none else e.vecIdx j }

/-- Modelled from the spec: add a validated document's postings to every
field index and store the document; the Text Index adds the id to every
distinct term's postings. -/
def insertDoc (e : Engine) (i : DocId) (d : Doc) : Engine :=
  { e with
    store := fun j => if j = i then some d else e.store j
    live := insert i e.live
    tagIdx := insert (d.mediaType, i) e.tagIdx
    numIdx := insert (d.agentId, i) e.numIdx
    textIdx := e.textIdx ∪ (tokenize d.text).toFinset.image (fun t => (t, i))
    vecIdx := fun j => if j = i then some d.vec else e.vecIdx j }

/-- Modelled from the spec: `upsert_document` — validate, and on success
atomically replace (retract any previous version's postings, then apply
the new document's postings); on failure mutate nothing. -/
def upsert (e : Engine) (i : DocId) (r : RawDoc) : Except IngestError Engine :=
  (validate e.dim r).map (fun d => insertDoc (retract e i) i d)

/-- Modelled from the spec: `delete_document` — remove all postings
referencing the identifier across every field index and drop the
document. -/
def deleteDoc (e : Engine) (i : DocId) : Engine := retract e i

/-- Modelled from the spec: an ingestion operation — upsert or delete. -/
inductive Op where
  | up (i : DocId) (r : RawDoc)
  | del (i : DocId)

/-- Modelled from the spec: apply one ingestion operation; a failed upsert
is all-or-nothing and leaves the state unchanged. -/
def stepOp (e : Engine) : Op → Engine
  | .up i r =>
    match upsert e i r with
    | .ok e' => e'
    | .error _ => e
  | .del i => deleteDoc e i

/-- Modelled from the spec: run a sequence of ingestion operations from the
empty engine. -/
def run (dim : ℕ) (ops : List Op) : Engine :=
  ops.foldl stepOp (emptyEngine dim)

/-- Modelled from the spec: a field predicate — `tag:value`,
`numeric:[lo,hi]` (inclusive both bounds; a point query is the degenerate
range lo=hi), or `text:term`. -/
inductive Pred where
  | tag (v : String)
  | range (lo hi : Int)
  | term (t : String)

/-- Modelled from the spec: evaluate one predicate against its field index,
producing a candidate id set. -/
def evalPred (e : Engine) : Pred → Finset DocId
  | .tag v => (e.tagIdx.filter (fun p => p.1 = v)).image Prod.snd
  | .range lo hi => (e.numIdx.filter (fun p => lo ≤ p.1 ∧ p.1 ≤ hi)).image Prod.snd
  | .term t => (e.textIdx.filter (fun p => p.1 = t)).image Prod.snd

/-- Modelled from the spec: the Query Executor's filter stage — evaluate
each predicate and intersect all predicate sets; with zero predicates the
universal set (every live document id) is used. -/
def query (e : Engine) (ps : List Pred) : Finset DocId :=
  ps.foldr (fun p acc => evalPred e p ∩ acc) e.live

/-- Modelled from the spec: `search_term(term)` returns the documents whose
text contains that exact normalized term (word match, not substring). -/
def searchTerm (e : Engine) (t : String) : Finset DocId :=
  (e.textIdx.filter (fun p => p.1 = t)).image Prod.snd


/-- The engine state of the metadata-filter scenario: the three documents of
the spec's concrete tag+numeric scenario inserted into an empty engine of
vector dimension 2. -/
def metaScenarioEngine : Engine :=
  run 2 [.up 1 ⟨.tag "Phone", .num 111, .txt "", .vec [1, 0]⟩,
         .up 2 ⟨.tag "Phone", .num 222, .txt "", .vec [1, 0]⟩,
         .up 3 ⟨.tag "Phone", .num 111, .txt "", .vec [1, 0]⟩]

/-- The engine state of the term-search scenario: one document whose text
field is "health insurance options". -/
def textScenarioEngine : Engine :=
  run 2 [.up 7 ⟨.tag "Phone", .num 7, .txt "health insurance options", .vec [1, 0]⟩]

/-- Modelled from the spec: the cross-index consistency invariant — a
document identifier appears in a field index's postings if and only if the
live document currently holds a value producing that postings entry, and
the live-key set matches the store. -/
def Consistent (e : Engine) : Prop :=
  (∀ i, i ∈ e.live ↔ ∃ d, e.store i = some d) ∧
  (∀ t i, (t, i) ∈ e.tagIdx ↔ ∃ d, e.store i = some d ∧ d.mediaType = t) ∧
  (∀ n i, (n, i) ∈ e.numIdx ↔ ∃ d, e.store i = some d ∧ d.agentId = n) ∧
  (∀ t i, (t, i) ∈ e.textIdx ↔ ∃ d, e.store i = some d ∧ t ∈ tokenize d.text) ∧
  (∀ i, e.vecIdx i = (e.store i).map Doc.vec)

/-- Modelled from the spec: dot product of two vectors (componentwise over
the shared length). -/
def dotQ : List ℚ → List ℚ → ℚ
  | x :: xs, y :: ys => x * y + dotQ xs ys
  | _, _ => 0

/-- Modelled from the spec: squared Euclidean norm of a vector. -/
def normSq (v : List ℚ) : ℚ := dotQ v v

/-- Modelled from the spec: cosine distance = 1 minus cosine similarity
between two vectors. -/
noncomputable def cosDist (u v : List ℚ) : ℝ :=
  1 - (dotQ u v : ℝ) / (Real.sqrt (normSq u) * Real.sqrt (normSq v))

/-- Modelled from the spec: the ranking key of a candidate — distance
first, document identifier second (the tie-break), compared
lexicographically. -/
def rankKey {α : Type} (d : DocId → α) (i : DocId) : α ×ₗ ℕ := toLex (d i, i)

/-- Modelled from the spec: exact brute-force KNN — rank all candidates by
(distance, id) ascending and keep the first k, returning (id, distance)
pairs. -/
def knnBy {α : Type} [LinearOrder α] (d : DocId → α) (k : ℕ) (C : List DocId) :
    List (DocId × α) :=
  (((C.map (rankKey d)).insertionSort (· ≤ ·)).take k).map
    (fun p => ((ofLex p).2, (ofLex p).1))

/-- Modelled from the spec: the Vector Index `knn` operation under the
cosine metric, over the id-to-vector mapping `vecs`. -/
noncomputable def knnCos (q : List ℚ) (vecs : DocId → List ℚ) (k : ℕ)
    (C : List DocId) : List (DocId × ℝ) :=
  knnBy (fun i => cosDist q (vecs i)) k C

/-- The KNN correctness property: the result has length min(k, |C|), lists
(id, distance) pairs of candidates, is sorted ascending by distance with
ties broken by ascending id, and every returned candidate ranks no worse
than every candidate left out. -/
def KnnSpec {α : Type} [LinearOrder α] (d : DocId → α) (k : ℕ) (C : List DocId)
    (res : List (DocId × α)) : Prop :=
  res.length = min k C.length ∧
  (∀ p ∈ res, p.1 ∈ C ∧ p.2 = d p.1) ∧
  res.Pairwise (fun p p' => p.2 < p'.2 ∨ (p.2 = p'.2 ∧ p.1 < p'.1)) ∧
  (∀ p ∈ res, ∀ j ∈ C, j ∉ res.map Prod.fst →
    (p.2 < d j ∨ (p.2 = d j ∧ p.1 ≤ j)))

/-- The stored vectors of the spec's concrete KNN scenario: v1=[1,0],
v2=[0.9,0.1], v3=[-1,0]. -/
def demoVecs : DocId → List ℚ :=
  fun i => if i = 1 then [1, 0] else if i = 2 then [9/10, 1/10] else
    if i = 3 then [-1, 0] else []

/-- From `createMetaData` in app.js (line 110): the pool of media types for
synthetic records is the singleton list containing "Phone". -/
def mediaTypes : List String := ["Phone"]

/-- From `faker.helpers.arrayElement` as used by `createMetaData`: selects
one element of a list; the selector index is reduced modulo the list
length. -/
def arrayElement {α : Type} (l : List α) (sel : ℕ) : Option α :=
  l.get? (sel % l.length)

/-- From `createMetaData` in app.js (line 131): the mediaType field of every
generated record is drawn from the `mediaTypes` pool. -/
def generatedMediaType (sel : ℕ) : Option String := arrayElement mediaTypes sel

/-- From `scenario1` and `scenario2` in app.js: the tag value used in the
`@mediaType` predicate of the demonstrated search queries. -/
def scenarioMediaType : String := "Phone"

/-- From `loadData` in app.js (line 39): each document is stored under the
key string `contactId:` followed by the document's contactId. -/
def storeKey (contactId : ℕ) : String := "contactId:" ++ toString contactId

/-- From `buildIndex` in app.js (line 80): the search index is declared
with key prefix `contactId:`. -/
def indexPrefix : String := "contactId:"

/-- The empty engine is consistent. -/
theorem consistent_empty (dim : ℕ) : Consistent (emptyEngine dim) := by
  refine ⟨?_, ?_, ?_, ?_, ?_⟩ <;> simp [emptyEngine]

/-- Retracting a document preserves the consistency invariant. -/
theorem consistent_retract {e : Engine} (h : Consistent e) (i : DocId) :
    Consistent (retract e i) := by
  obtain ⟨hl, ht, hn, hx, hv⟩ := h
  unfold retract
  cases hs : e.store i with
  | none => exact ⟨hl, ht, hn, hx, hv⟩
  | some d =>
    refine ⟨?_, ?_, ?_, ?_, ?_⟩
    · intro j
      by_cases hj : j = i <;>
        simp [hj, Finset.mem_erase, hl j]
    · intro t j
      by_cases hj : j = i
      · subst hj
        simp only [Finset.mem_erase, if_pos rfl]
        constructor
        · rintro ⟨hne, hmem⟩
          obtain ⟨d', hd', hmt⟩ := (ht t j).mp hmem
          rw [hs] at hd'
          cases hd'
          rw [hmt] at hne
          exact absurd rfl hne
        · rintro ⟨d', hd', -⟩
          cases hd'
      · simp only [Finset.mem_erase, if_neg hj, ht t j]
        constructor
        · rintro ⟨-, hmem⟩; exact hmem
        · intro hmem
          exact ⟨by simp [Prod.ext_iff, hj], hmem⟩
    · intro n j
      by_cases hj : j = i
      · subst hj
        simp only [Finset.mem_erase, if_pos rfl]
        constructor
        · rintro ⟨hne, hmem⟩
          obtain ⟨d', hd', hag⟩ := (hn n j).mp hmem
          rw [hs] at hd'
          cases hd'
          rw [hag] at hne
          exact absurd rfl hne
        · rintro ⟨d', hd', -⟩
          cases hd'
      · simp only [Finset.mem_erase, if_neg hj, hn n j]
        constructor
        · rintro ⟨-, hmem⟩; exact hmem
        · intro hmem
          exact ⟨by simp [Prod.ext_iff, hj], hmem⟩
    · intro t j
      by_cases hj : j = i
      · subst hj
        simp only [Finset.mem_sdiff, if_pos rfl, Finset.mem_image, List.mem_toFinset]
        constructor
        · rintro ⟨hmem, hnot⟩
          obtain ⟨d', hd', htk⟩ := (hx t j).mp hmem
          rw [hs] at hd'
          cases hd'
          exact absurd ⟨t, htk, rfl⟩ hnot
        · rintro ⟨d', hd', -⟩
          cases hd'
      · simp only [Finset.mem_sdiff, if_neg hj, hx t j, Finset.mem_image, List.mem_toFinset]
        constructor
        · rintro ⟨hmem, -⟩; exact hmem
        · intro hmem
          refine ⟨hmem, ?_⟩
          rintro ⟨t', -, heq⟩
          exact hj (congrArg Prod.snd heq).symm
    · intro j
      by_cases hj : j = i <;> simp [hj, hv j]


/-- After retraction the store no longer holds the document. -/
theorem retract_store_self (e : Engine) (i : DocId) : (retract e i).store i = none := by
  unfold retract
  cases hs : e.store i with
  | none => exact hs
  | some d => simp

/-- Inserting a fresh document's postings preserves the consistency
invariant. -/
theorem consistent_insertDoc {e : Engine} (h : Consistent e) {i : DocId}
    (hs : e.store i = none) (d : Doc) : Consistent (insertDoc e i d) := by
  obtain ⟨hl, ht, hn, hx, hv⟩ := h
  refine ⟨?_, ?_, ?_, ?_, ?_⟩
  · intro j
    by_cases hj : j = i <;> simp [insertDoc, hj, hl j]
  · intro t j
    by_cases hj : j = i
    · subst hj
      simp only [insertDoc, Finset.mem_insert, if_pos rfl]
      constructor
      · rintro (heq | hmem)
        · exact ⟨d, rfl, (Prod.ext_iff.mp heq).1.symm⟩
        · obtain ⟨d', hd', -⟩ := (ht t j).mp hmem
          rw [hs] at hd'
          cases hd'
      · rintro ⟨d', hd', hmt⟩
        cases hd'
        exact Or.inl (by rw [hmt])
    · simp only [insertDoc, Finset.mem_insert, if_neg hj, ht t j]
      constructor
      · rintro (heq | hmem)
        · exact absurd (congrArg Prod.snd heq) hj
        · exact hmem
      · exact Or.inr
  · intro n j
    by_cases hj : j = i
    · subst hj
      simp only [insertDoc, Finset.mem_insert, if_pos rfl]
      constructor
      · rintro (heq | hmem)
        · exact ⟨d, rfl, (Prod.ext_iff.mp heq).1.symm⟩
        · obtain ⟨d', hd', -⟩ := (hn n j).mp hmem
          rw [hs] at hd'
          cases hd'
      · rintro ⟨d', hd', hag⟩
        cases hd'
        exact Or.inl (by rw [hag])
    · simp only [insertDoc, Finset.mem_insert, if_neg hj, hn n j]
      constructor
      · rintro (heq | hmem)
        · exact absurd (congrArg Prod.snd heq) hj
        · exact hmem
      · exact Or.inr
  · intro t j
    by_cases hj : j = i
    · subst hj
      simp only [insertDoc, Finset.mem_union, if_pos rfl, Finset.mem_image,
        List.mem_toFinset]
      constructor
      · rintro (hmem | ⟨t', htk, heq⟩)
        · obtain ⟨d', hd', -⟩ := (hx t j).mp hmem
          rw [hs] at hd'
          cases hd'
        · cases heq
          exact ⟨d, rfl, htk⟩
      · rintro ⟨d', hd', htk⟩
        cases hd'
        exact Or.inr ⟨t, htk, rfl⟩
    · simp only [insertDoc, Finset.mem_union, if_neg hj, hx t j, Finset.mem_image,
        List.mem_toFinset]
      constructor
      · rintro (hmem | ⟨t', -, heq⟩)
        · exact hmem
        · exact absurd (congrArg Prod.snd heq).symm hj
      · exact Or.inl
  · intro j
    by_cases hj : j = i <;> simp [insertDoc, hj, hv j]

/-- Every single ingestion step preserves the consistency invariant. -/
theorem consistent_stepOp {e : Engine} (h : Consistent e) (op : Op) :
    Consistent (stepOp e op) := by
  cases op with
  | up i r =>
    simp only [stepOp, upsert]
    cases hval : validate e.dim r with
    | error err => simpa [hval, Except.map] using h
    | ok d =>
      simp only [hval, Except.map]
      exact consistent_insertDoc (consistent_retract h i) (retract_store_self e i) d
  | del i => exact consistent_retract h i



/-- The ranking key determines the document identifier. -/
theorem rankKey_injective {α : Type} (d : DocId → α) :
    Function.Injective (rankKey d) := by
  intro i j h
  exact congrArg (fun p => (ofLex p).2) h

/-- Exact brute-force KNN satisfies the KNN correctness property for every
distance assignment, every k, and every duplicate-free candidate set. -/
theorem knnBy_spec {α : Type} [LinearOrder α] (d : DocId → α) (k : ℕ)
    (C : List DocId) (hC : C.Nodup) : KnnSpec d k C (knnBy d k C) := by
  classical
  set L := C.map (rankKey d) with hL
  set S := L.insertionSort (· ≤ ·) with hS
  have hperm : List.Perm S L := L.perm_insertionSort (· ≤ ·)
  have hsort : S.Sorted (· ≤ ·) := L.sorted_insertionSort (· ≤ ·)
  have hLnd : L.Nodup := hC.map (rankKey_injective d)
  have hSnd : S.Nodup := hperm.nodup_iff.mpr hLnd
  have hslt : S.Sorted (· < ·) := hsort.lt_of_le hSnd
  have hmem_take : ∀ p ∈ knnBy d k C, ∃ i ∈ C, rankKey d i ∈ S.take k ∧
      p = ((ofLex (rankKey d i)).2, (ofLex (rankKey d i)).1) := by
    intro p hp
    simp only [knnBy, List.mem_map] at hp
    obtain ⟨x, hx, hpx⟩ := hp
    have hxS : x ∈ S := (S.take_sublist k).mem hx
    have hxL : x ∈ L := hperm.mem_iff.mp hxS
    simp only [hL, List.mem_map] at hxL
    obtain ⟨i, hi, hxi⟩ := hxL
    exact ⟨i, hi, hxi ▸ hx, by rw [← hpx, ← hxi]⟩
  refine ⟨?_, ?_, ?_, ?_⟩
  · simp [knnBy, List.length_take, List.length_insertionSort]
  · intro p hp
    obtain ⟨i, hi, -, hpi⟩ := hmem_take p hp
    subst hpi
    exact ⟨by simpa [rankKey] using hi, by simp [rankKey]⟩
  · have htake : (S.take k).Pairwise (· < ·) := hslt.sublist (S.take_sublist k)
    simp only [knnBy, List.pairwise_map]
    refine htake.imp ?_
    intro x y hxy
    have : toLex (ofLex x) < toLex (ofLex y) := by simpa using hxy
    rcases (Prod.Lex.lt_iff (ofLex x) (ofLex y)).mp this with h | ⟨h1, h2⟩
    · exact Or.inl h
    · exact Or.inr ⟨h1, h2⟩
  · intro p hp j hj hjnot
    obtain ⟨i, hi, hitake, hpi⟩ := hmem_take p hp
    have hyS : rankKey d j ∈ S := hperm.mem_iff.mpr (by simp [hL]; exact ⟨j, hj, rfl⟩)
    have hynot : rankKey d j ∉ S.take k := by
      intro hyk
      refine hjnot ?_
      simp only [knnBy, List.map_map, List.mem_map]
      exact ⟨rankKey d j, hyk, by simp [rankKey]⟩
    have hydrop : rankKey d j ∈ S.drop k := by
      have := (List.take_append_drop k S) ▸ hyS
      rcases List.mem_append.mp this with h | h
      · exact absurd h hynot
      · exact h
    have hle : rankKey d i ≤ rankKey d j := by
      have hpw : S.Pairwise (· ≤ ·) := hsort
      have happ : (S.take k ++ S.drop k).Pairwise (· ≤ ·) := by
        rw [List.take_append_drop]; exact hpw
      exact (List.pairwise_append.mp happ).2.2 _ hitake _ hydrop
    have : toLex (ofLex (rankKey d i)) ≤ toLex (ofLex (rankKey d j)) := by simpa using hle
    rcases (Prod.Lex.le_iff (ofLex (rankKey d i)) (ofLex (rankKey d j))).mp this with
      h | ⟨h1, h2⟩
    · subst hpi; exact Or.inl (by simpa [rankKey] using h)
    · subst hpi
      refine Or.inr ⟨by simpa [rankKey] using h1, by simpa [rankKey] using h2⟩

/-- Cosine distance from [1,0] to itself is 0. -/
theorem cosDist_demo1 : cosDist [1, 0] [1, 0] = 0 := by
  norm_num [cosDist, dotQ, normSq, Real.sqrt_one]

/-- Cosine distance from [1,0] to the opposite vector [-1,0] is 2. -/
theorem cosDist_demo3 : cosDist [1, 0] [-1, 0] = 2 := by
  norm_num [cosDist, dotQ, normSq, Real.sqrt_one]

/-- Lower bound on the square root of 0.82. -/
theorem sqrt82_lo : (0.9055 : ℝ) < Real.sqrt (82 / 100) := by
  rw [Real.lt_sqrt (by norm_num)]
  norm_num

/-- Upper bound on the square root of 0.82. -/
theorem sqrt82_hi : Real.sqrt ((82 : ℝ) / 100) < 0.9056 := by
  rw [Real.sqrt_lt' (by norm_num)]
  norm_num

/-- Closed form of the cosine distance from [1,0] to [0.9,0.1]. -/
theorem cosDist_demo2_eq :
    cosDist [1, 0] [9/10, 1/10] = 1 - (9 / 10 : ℝ) / Real.sqrt (82 / 100) := by
  have h1 : dotQ [1, 0] [9/10, 1/10] = 9/10 := by norm_num [dotQ]
  have h2 : normSq [9/10, 1/10] = 82/100 := by norm_num [normSq, dotQ]
  have h3 : normSq [1, 0] = 1 := by norm_num [normSq, dotQ]
  rw [cosDist, h1, h2, h3]
  push_cast
  rw [Real.sqrt_one]
  norm_num

/-- The cosine distance from [1,0] to [0.9,0.1] lies strictly between
0.006 and 0.0065. -/
theorem cosDist_demo2_bounds :
    0.006 < cosDist [1, 0] [9/10, 1/10] ∧ cosDist [1, 0] [9/10, 1/10] < 0.0065 := by
  rw [cosDist_demo2_eq]
  have hlo := sqrt82_lo
  have hhi := sqrt82_hi
  have hpos : (0 : ℝ) < Real.sqrt (82 / 100) := lt_trans (by norm_num) hlo
  constructor
  · have h : (9 / 10 : ℝ) / Real.sqrt (82 / 100) < 0.994 := by
      rw [div_lt_iff₀ hpos]
      nlinarith
    linarith
  · have h : (0.9935 : ℝ) < (9 / 10) / Real.sqrt (82 / 100) := by
      rw [lt_div_iff₀ hpos]
      nlinarith
    linarith

/-- Claim C6: the vector index computes distance as cosine distance (1
minus cosine similarity) between the query vector and each candidate; for
stored vectors v1=[1,0], v2=[0.9,0.1], v3=[-1,0] under dimension 2, knn
with query [1,0] and k=1 returns [(1, 0)], and with k=2 it returns
[(1, 0), (2, d)] ascending where d is approximately 0.005 (within
0.0015). -/
theorem knn_cosine_scenario :
    (∀ u v : List ℚ, cosDist u v =
      1 - (dotQ u v : ℝ) / (Real.sqrt (normSq u) * Real.sqrt (normSq v))) ∧
    knnCos [1, 0] demoVecs 1 [1, 2, 3] = [(1, 0)] ∧
    (∃ dd : ℝ, knnCos [1, 0] demoVecs 2 [1, 2, 3] = [(1, 0), (2, dd)] ∧
      |dd - 0.005| < 0.0015) := by
  have hv1 : demoVecs 1 = [1, 0] := rfl
  have hv2 : demoVecs 2 = [9/10, 1/10] := rfl
  have hv3 : demoVecs 3 = [-1, 0] := rfl
  set df := fun i => cosDist [1, 0] (demoVecs i) with hdf
  have hd1 : df 1 = 0 := by rw [hdf]; simp only [hv1]; exact cosDist_demo1
  have hd3 : df 3 = 2 := by rw [hdf]; simp only [hv3]; exact cosDist_demo3
  have hd2lo : (0.006 : ℝ) < df 2 := by
    rw [hdf]; simp only [hv2]; exact cosDist_demo2_bounds.1
  have hd2hi : df 2 < 0.0065 := by
    rw [hdf]; simp only [hv2]; exact cosDist_demo2_bounds.2
  have h12 : rankKey df 1 ≤ rankKey df 2 := by
    refine (Prod.Lex.le_iff (df 1, 1) (df 2, 2)).mpr (Or.inl ?_)
    show df 1 < df 2
    rw [hd1]; linarith
  have h23 : rankKey df 2 ≤ rankKey df 3 := by
    refine (Prod.Lex.le_iff (df 2, 2) (df 3, 3)).mpr (Or.inl ?_)
    show df 2 < df 3
    rw [hd3]; linarith
  have hsort : (([1, 2, 3] : List DocId).map (rankKey df)).insertionSort (· ≤ ·) =
      [rankKey df 1, rankKey df 2, rankKey df 3] := by
    show List.orderedInsert _ (rankKey df 1)
        (List.orderedInsert _ (rankKey df 2)
          (List.orderedInsert _ (rankKey df 3) [])) = _
    rw [List.orderedInsert_nil, List.orderedInsert_of_le _ _ h23,
      List.orderedInsert_of_le _ _ h12]
  refine ⟨fun u v => rfl, ?_, ?_⟩
  · show (((([1, 2, 3] : List DocId).map (rankKey df)).insertionSort (· ≤ ·)).take 1).map
        (fun p => ((ofLex p).2, (ofLex p).1)) = [(1, 0)]
    rw [hsort]
    simp [rankKey, hd1]
  · refine ⟨df 2, ?_, ?_⟩
    · show (((([1, 2, 3] : List DocId).map (rankKey df)).insertionSort (· ≤ ·)).take 2).map
          (fun p => ((ofLex p).2, (ofLex p).1)) = [(1, 0), (2, df 2)]
      rw [hsort]
      simp [rankKey, hd1]
    · rw [abs_sub_lt_iff]
      constructor <;> linarith

end RecMeta

/-- Claim C2: for any two field predicates P1 and P2, the query operation
applied to the conjunction P1 AND P2 returns exactly the set-intersection
of the result of query(P1) and the result of query(P2) evaluated
independently. -/
theorem RecMeta.query_conj_eq_inter (e : RecMeta.Engine) (p1 p2 : RecMeta.Pred) :
    RecMeta.query e [p1, p2] = RecMeta.query e [p1] ∩ RecMeta.query e [p2] := by
  simp only [RecMeta.query, List.foldr]
  ext i
  simp only [Finset.mem_inter]
  tauto

/-- Claim C4: after inserting the three documents {id 1, agentId 111, tag
"Phone"}, {id 2, agentId 222, tag "Phone"}, {id 3, agentId 111, tag
"Phone"}, the conjunctive query with numeric predicate agentId=111 (the
degenerate range [111,111]) and tag predicate "Phone" returns exactly the
id set {1, 3}. -/
theorem RecMeta.scenario_tag_numeric_query :
    RecMeta.query RecMeta.metaScenarioEngine [.range 111 111, .tag "Phone"] = {1, 3} := by
  decide

/-- Claim C5: for a document (id 7) whose text field was indexed from the
string "health insurance options", searching the term "insurance" returns
that document's id, and searching "insuranc" returns the empty set: term
search matches exact case-normalized words, never substrings. -/
theorem RecMeta.scenario_term_search :
    RecMeta.searchTerm RecMeta.textScenarioEngine "insurance" = {7} ∧
    RecMeta.searchTerm RecMeta.textScenarioEngine "insuranc" = ∅ := by
  decide

/-- Claim C7: every attempted insert of a document whose vector field has
length different from the engine's declared dimension fails with
DimensionMismatchError, and the applied step leaves every index (the whole
engine state) unchanged. -/
theorem RecMeta.dimension_enforcement (e : RecMeta.Engine) (i : RecMeta.DocId)
    (r : RecMeta.RawDoc) (v : List ℚ) (hv : r.vector = .vec v)
    (hlen : v.length ≠ e.dim) :
    RecMeta.upsert e i r = .error .dimensionMismatch ∧
      RecMeta.stepOp e (.up i r) = e := by
  have hval : RecMeta.validate e.dim r = .error .dimensionMismatch := by
    simp only [RecMeta.validate, hv, if_neg hlen]
  refine ⟨?_, ?_⟩
  · simp only [RecMeta.upsert, hval, Except.map]
  · simp only [RecMeta.stepOp, RecMeta.upsert, hval, Except.map]

/-- Witness for C7: inserting a vector of length 3 into the empty engine of
declared dimension 2 fails with DimensionMismatchError and changes
nothing. -/
theorem RecMeta.dimension_enforcement_witness :
    RecMeta.upsert (RecMeta.emptyEngine 2) 1
        ⟨.tag "Phone", .num 5, .txt "", .vec [1, 2, 3]⟩ = .error .dimensionMismatch ∧
      RecMeta.stepOp (RecMeta.emptyEngine 2)
        (.up 1 ⟨.tag "Phone", .num 5, .txt "", .vec [1, 2, 3]⟩) = RecMeta.emptyEngine 2 :=
  RecMeta.dimension_enforcement (RecMeta.emptyEngine 2) 1 _ [1, 2, 3] rfl (by decide)

/-- Claim C8: ingestion is all-or-nothing — if validation of a document
fails for any reason, the upsert reports that error and the applied step
mutates no index and no document-store state. -/
theorem RecMeta.ingest_all_or_nothing (e : RecMeta.Engine) (i : RecMeta.DocId)
    (r : RecMeta.RawDoc) (err : RecMeta.IngestError)
    (hval : RecMeta.validate e.dim r = .error err) :
    RecMeta.upsert e i r = .error err ∧ RecMeta.stepOp e (.up i r) = e := by
  refine ⟨?_, ?_⟩
  · simp only [RecMeta.upsert, hval, Except.map]
  · simp only [RecMeta.stepOp, RecMeta.upsert, hval, Except.map]

/-- Witness for C8: a document whose agentId field holds a tag value fails
validation on the empty engine of dimension 2, and the step leaves the
engine unchanged. -/
theorem RecMeta.ingest_all_or_nothing_witness :
    RecMeta.upsert (RecMeta.emptyEngine 2) 4
        ⟨.tag "Phone", .tag "oops", .txt "", .vec [1, 0]⟩ = .error .typeMismatch ∧
      RecMeta.stepOp (RecMeta.emptyEngine 2)
        (.up 4 ⟨.tag "Phone", .tag "oops", .txt "", .vec [1, 0]⟩) = RecMeta.emptyEngine 2 :=
  RecMeta.ingest_all_or_nothing (RecMeta.emptyEngine 2) 4 _ .typeMismatch rfl

/-- Claim C3: after every sequence of upserts and deletes, for every live
document id and every field index, the id appears in that index's postings
if and only if the document's current field value would produce that
postings entry — no stale, orphaned, or missing postings exist. -/
theorem RecMeta.consistent_run (dim : ℕ) (ops : List RecMeta.Op) :
    RecMeta.Consistent (RecMeta.run dim ops) := by
  suffices h : ∀ (e : Engine), Consistent e → Consistent (ops.foldl stepOp e) from
    h _ (consistent_empty dim)
  induction ops with
  | nil => exact fun e he => he
  | cons op rest ih => exact fun e he => ih _ (consistent_stepOp he op)

/-- Claim C1: for every fixed duplicate-free candidate set C, query vector
q, and k, the KNN operation over the stored vectors returns exactly the k
elements of C with smallest cosine distance to q, sorted ascending by
distance with ties broken by ascending document identifier, and the result
length equals min(k, |C|). -/
theorem RecMeta.knn_correct (q : List ℚ) (vecs : RecMeta.DocId → List ℚ) (k : ℕ)
    (C : List RecMeta.DocId) (hC : C.Nodup) :
    RecMeta.KnnSpec (fun i => RecMeta.cosDist q (vecs i)) k C
      (RecMeta.knnCos q vecs k C) :=
  RecMeta.knnBy_spec _ k C hC

/-- Witness for C1: the KNN correctness property holds at the concrete
demo query, vectors, k = 2 and candidate set [1, 2, 3]. -/
theorem RecMeta.knn_correct_witness :
    ([1, 2, 3] : List RecMeta.DocId).Nodup ∧
      RecMeta.KnnSpec (fun i => RecMeta.cosDist [1, 0] (RecMeta.demoVecs i)) 2 [1, 2, 3]
        (RecMeta.knnCos [1, 0] RecMeta.demoVecs 2 [1, 2, 3]) :=
  ⟨by decide, RecMeta.knn_correct [1, 0] RecMeta.demoVecs 2 [1, 2, 3] (by decide)⟩

/-- Claim C9: every record produced by the synthetic metadata generator has
its mediaType equal to "Phone" — the pool is the singleton ["Phone"] — so,
whatever element the faker selector picks, the generated document carries
exactly the tag value used by the search scenarios' mediaType predicate. -/
theorem RecMeta.generated_mediaType_phone (sel : ℕ) :
    RecMeta.generatedMediaType sel = some RecMeta.scenarioMediaType := by
  simp [RecMeta.generatedMediaType, RecMeta.arrayElement, RecMeta.mediaTypes,
    RecMeta.scenarioMediaType, Nat.mod_one]

/-- Claim C10: every document written by loadData is stored under a key of
the form `contactId:` followed by the document's contactId, so the index's
declared key prefix `contactId:` is a prefix of every stored key and every
loaded document lies within the scope of the index. -/
theorem RecMeta.storeKey_has_indexPrefix (cid : ℕ) :
    RecMeta.indexPrefix.toList <+: (RecMeta.storeKey cid).toList := by
  refine ⟨(toString cid).toList, ?_⟩
  show RecMeta.indexPrefix.toList ++ (toString cid).toList = (RecMeta.storeKey cid).toList
  simp [RecMeta.storeKey, RecMeta.indexPrefix, String.toList]
